import Mathlib

/-!
Verification development for the telegram-autostar engine (src/autostar.py).

The source is a single-threaded asyncio program.  Its read-position tracker
serializes the whole watermark-check / range-resolution / dedup-marking
critical section behind one `update_lock`, so any interleaving of incoming
read-advance signals is observationally some sequence of atomic
`process_read_update` steps; we therefore embed the tracker as a sequential
state-transition function and quantify over arbitrary signal sequences.

Backend interactions are embedded as oracles passed in explicitly:
the history query of `get_messages_in_range` is an `Except` value (the list
of message ids the backend iterator yields, or a failure), and each
successive `client(SendReactionRequest ...)` call inside `add_reaction` is
the next element of a list of `SendResult`s.
-/

namespace Autostar

/-- State of the tracker: `last_read_ids` is the Python
`defaultdict(int)` (absent keys read as 0), embedded as a total function;
`starred_messages` is the set of (peer id, message id) pairs already
starred, embedded as a list used only through membership. -/
structure TrackerState where
  lastReadIds : Int → Int
  starred : List (Int × Int)

/-- State at process start: no chats tracked, nothing starred. -/
def initialState : TrackerState :=
  { lastReadIds := fun _ => 0, starred := [] }

/-- Embedding of `should_watch`: watch everything when the allow-list is
empty, otherwise only peers on the list. -/
def should_watch (watch_list : List Int) (peer_id : Int) : Bool :=
  if watch_list = [] then true else decide (peer_id ∈ watch_list)

/-- Embedding of `get_messages_in_range`.  `history` is the backend oracle:
`Except.ok msgs` is the sequence of ids the `iter_messages` call yields,
`Except.error` a raised exception.  On success the ids are filtered to the
exact `(from_id, to_id]` bound; on failure the fallback is `[to_id]` when
`to_id > from_id` (else empty).  Both paths end in Python `sorted`. -/
def get_messages_in_range (history : Except Unit (List Int))
    (from_id to_id : Int) : List Int :=
  List.insertionSort (fun a b => a ≤ b)
    (match history with
     | Except.ok msgs =>
         msgs.filter (fun i => decide (from_id < i) && decide (i ≤ to_id))
     | Except.error _ => if from_id < to_id then [to_id] else [])

/-- One normalized read-advance signal: the peer it is for, the new
high-water mark, and the backend history oracle that the range query
inside this step would observe. -/
structure Signal where
  peer : Int
  maxId : Int
  history : Except Unit (List Int)

/-- Writing `last_read_ids[peer] = maxId` on the tracker state. -/
def updateLastRead (s : TrackerState) (peer maxId : Int) : TrackerState :=
  { s with lastReadIds := fun q => if q = peer then maxId else s.lastReadIds q }

/-- Embedding of `process_read_update` (the whole locked critical section).
Returns the successor state together with `messages_to_star`, the list of
message ids this step hands to `add_reaction` after the lock is released. -/
def process_read_update (watch_list : List Int) (s : TrackerState)
    (sig : Signal) : TrackerState × List Int :=
  if should_watch watch_list sig.peer = false then (s, [])
  else
    let last_read := s.lastReadIds sig.peer
    if sig.maxId ≤ last_read then (s, [])
    else
      let s1 := updateLastRead s sig.peer sig.maxId
      if last_read = 0 then (s1, [])
      else
        let message_ids := get_messages_in_range sig.history last_read sig.maxId
        if message_ids = [] then (s1, [])
        else
          let messages_to_star :=
            message_ids.filter (fun m => decide ((sig.peer, m) ∉ s.starred))
          if messages_to_star = [] then (s1, [])
          else
            ({ s1 with
                starred := s1.starred ++ messages_to_star.map (fun m => (sig.peer, m)) },
             messages_to_star)

/-- Running the tracker over a whole sequence of signals, collecting the
dispatch trace: every (peer, message) pair handed to the Reaction
Dispatcher, in order. -/
def run (watch_list : List Int) : TrackerState → List Signal →
    TrackerState × List (Int × Int)
  | s, [] => (s, [])
  | s, sig :: rest =>
    let step := process_read_update watch_list s sig
    let tail := run watch_list step.1 rest
    (tail.1, step.2.map (fun m => (sig.peer, m)) ++ tail.2)

/-- Outcomes of one `client(SendReactionRequest ...)` call, mirroring the
exception classification in `add_reaction`. -/
inductive SendResult where
  | success
  | reactionInvalid
  | msgIdInvalid
  | chatAdminRequired
  | channelPrivate
  | floodWait (seconds : Nat)
  | otherError
deriving DecidableEq

/-- Observable outcome of a whole `add_reaction` invocation: the boolean it
returns, how many backend calls it issued, and the sleep durations of the
flood-wait retries in order. -/
structure DispatchOutcome where
  ok : Bool
  backendCalls : Nat
  sleeps : List Nat
deriving DecidableEq

/-- Embedding of `add_reaction`.  The argument lists the results of
successive backend calls; a `floodWait` head makes the function sleep for
the given seconds and retry on the tail, every other head terminates with
one call.  An exhausted oracle yields failure with no further call (a pure
modelling artifact; a real backend always answers). -/
def add_reaction : List SendResult → DispatchOutcome
  | [] => { ok := false, backendCalls := 0, sleeps := [] }
  | r :: rest =>
    match r with
    | SendResult.success => { ok := true, backendCalls := 1, sleeps := [] }
    | SendResult.reactionInvalid => { ok := false, backendCalls := 1, sleeps := [] }
    | SendResult.msgIdInvalid => { ok := false, backendCalls := 1, sleeps := [] }
    | SendResult.chatAdminRequired => { ok := false, backendCalls := 1, sleeps := [] }
    | SendResult.channelPrivate => { ok := false, backendCalls := 1, sleeps := [] }
    | SendResult.floodWait s =>
        let o := add_reaction rest
        { ok := o.ok, backendCalls := o.backendCalls + 1, sleeps := s :: o.sleeps }
    | SendResult.otherError => { ok := false, backendCalls := 1, sleeps := [] }

/-- Modelled from the spec: the Reaction Dispatcher of section 4.4, a
component the source file does not implement (src/autostar.py has no
Permission Cache and no isAllowed check).  When `allowed` (the isAllowed
answer for the configured reaction kind) is false, it returns failure with
zero backend calls; otherwise it issues the call and classifies the result
exactly as the spec lists.  The cache-eviction side effect is not modelled
here; only the call-gating is needed for comparison with `add_reaction`. -/
def dispatchSpec (allowed : Bool) : List SendResult → DispatchOutcome
  | [] => { ok := false, backendCalls := 0, sleeps := [] }
  | r :: rest =>
    if allowed = false then { ok := false, backendCalls := 0, sleeps := [] }
    else
      match r with
      | SendResult.success => { ok := true, backendCalls := 1, sleeps := [] }
      | SendResult.floodWait s =>
          let o := dispatchSpec allowed rest
          { ok := o.ok, backendCalls := o.backendCalls + 1, sleeps := s :: o.sleeps }
      | _ => { ok := false, backendCalls := 1, sleeps := [] }

/-- One dialog as seen by `initialize_read_positions`: its peer id, the
optional server-reported `read_inbox_max_id`, and the optional id of the
most recent message of the dialog (`dialog.message`). -/
structure Dialog where
  peer : Int
  read_inbox_max_id : Option Int
  top_message : Option Int

/-- Embedding of `initialize_read_positions`: walk the dialogs in order,
skip unwatched peers, store the server-reported read position when the
attribute is present, otherwise fall back to the most recent message id,
otherwise leave the entry alone. -/
def initialize_read_positions (watch_list : List Int) :
    List Dialog → (Int → Int) → (Int → Int)
  | [], acc => acc
  | d :: rest, acc =>
    if should_watch watch_list d.peer = false then
      initialize_read_positions watch_list rest acc
    else
      match d.read_inbox_max_id with
      | some r =>
          initialize_read_positions watch_list rest
            (fun q => if q = d.peer then r else acc q)
      | none =>
        match d.top_message with
        | some m =>
            initialize_read_positions watch_list rest
              (fun q => if q = d.peer then m else acc q)
        | none => initialize_read_positions watch_list rest acc

/-- Hypothesis that the backend history oracle of a signal yields pairwise
distinct message ids, as a real history window does. -/
def histNodup (sig : Signal) : Prop :=
  ∀ msgs, sig.history = Except.ok msgs → msgs.Nodup

/-- Claim C4: a stale signal (new high-water mark at most the current
watermark) is a pure no-op: no dispatches, state untouched. -/
theorem stale_signal_noop (watch_list : List Int) (s : TrackerState)
    (sig : Signal) (h : sig.maxId ≤ s.lastReadIds sig.peer) :
    process_read_update watch_list s sig = (s, []) := by
  unfold process_read_update
  by_cases hw : should_watch watch_list sig.peer = false
  · rw [if_pos hw]
  · rw [if_neg hw, if_pos h]

/-- Witness for C4 at a concrete stale signal. -/
theorem stale_signal_noop_witness :
    process_read_update [] initialState
        { peer := 1, maxId := 0, history := Except.error () } =
      (initialState, []) :=
  stale_signal_noop [] initialState
    { peer := 1, maxId := 0, history := Except.error () } (by decide)

/-- Claim C7: when the backend history query fails, the Range Resolver
degrades to the single endpoint instead of raising: given old < new the
result is exactly the one-element list holding new. -/
theorem range_resolver_fallback (e : Unit) (old new : Int) (h : old < new) :
    get_messages_in_range (Except.error e) old new = [new] := by
  unfold get_messages_in_range
  rw [if_pos h]
  rfl

/-- Witness for C7 at a concrete failed query. -/
theorem range_resolver_fallback_witness :
    get_messages_in_range (Except.error ()) 3 7 = [7] :=
  range_resolver_fallback () 3 7 (by decide)

/-- Claim C8: `add_reaction` is total (it always produces a boolean
outcome).  A flood-wait result makes it sleep exactly the specified
seconds and retry the identical call, repeating the rule on further
flood-waits; any other result terminates after that single backend call,
with no sleep and success exactly on a success result. -/
theorem dispatch_retry_policy :
    (∀ (w : Nat) (rest : List SendResult),
      add_reaction (SendResult.floodWait w :: rest) =
        { ok := (add_reaction rest).ok,
          backendCalls := (add_reaction rest).backendCalls + 1,
          sleeps := w :: (add_reaction rest).sleeps }) ∧
    (∀ (r : SendResult) (rest : List SendResult),
      (∀ w : Nat, r ≠ SendResult.floodWait w) →
      (add_reaction (r :: rest)).backendCalls = 1 ∧
      (add_reaction (r :: rest)).sleeps = [] ∧
      ((add_reaction (r :: rest)).ok = true ↔ r = SendResult.success)) := by
  constructor
  · intro w rest
    rfl
  · intro r rest hr
    cases r with
    | success => exact ⟨rfl, rfl, by simp [add_reaction]⟩
    | reactionInvalid => exact ⟨rfl, rfl, by simp [add_reaction]⟩
    | msgIdInvalid => exact ⟨rfl, rfl, by simp [add_reaction]⟩
    | chatAdminRequired => exact ⟨rfl, rfl, by simp [add_reaction]⟩
    | channelPrivate => exact ⟨rfl, rfl, by simp [add_reaction]⟩
    | floodWait w => exact absurd rfl (hr w)
    | otherError => exact ⟨rfl, rfl, by simp [add_reaction]⟩

/-- Witness for C8: the non-flood-wait branch applied to a concrete
terminal error. -/
theorem dispatch_retry_policy_witness :
    (add_reaction [SendResult.otherError]).backendCalls = 1 ∧
    (add_reaction [SendResult.otherError]).sleeps = [] ∧
    ((add_reaction [SendResult.otherError]).ok = true ↔
      SendResult.otherError = SendResult.success) :=
  dispatch_retry_policy.2 SendResult.otherError []
    (fun _ h => SendResult.noConfusion h)

/-- Counterexample to claim C2: the spec-modelled dispatcher with
isAllowed false issues zero backend calls, but the `add_reaction` of the code
issues one on the very same oracle — the source has no permission check
at all, so the two differ already at this concrete input. -/
theorem no_permission_gate_counterexample :
    (add_reaction [SendResult.reactionInvalid]).backendCalls = 1 ∧
    (dispatchSpec false [SendResult.reactionInvalid]).backendCalls = 0 ∧
    add_reaction [SendResult.reactionInvalid] ≠
      dispatchSpec false [SendResult.reactionInvalid] := by
  refine ⟨rfl, rfl, ?_⟩
  decide

/-- Claim C2 as amended: `add_reaction` performs no permission check and
keeps no permission cache — it issues the backend call unconditionally,
and a ReactionInvalidError result makes it return failure at once,
without retrying and with no cache entry to remove. -/
theorem no_permission_gate_amended :
    (∀ (r : SendResult) (rest : List SendResult),
      1 ≤ (add_reaction (r :: rest)).backendCalls) ∧
    (∀ rest : List SendResult,
      add_reaction (SendResult.reactionInvalid :: rest) =
        { ok := false, backendCalls := 1, sleeps := [] }) := by
  constructor
  · intro r rest
    cases r <;> simp [add_reaction]
  · intro rest
    rfl

/-- Claim C10: with a non-empty allow-list, a signal for a peer off the
list is dropped before the watermark is even read: no dispatch, no state
change of any kind. -/
theorem unwatched_peer_untouched (watch_list : List Int) (s : TrackerState)
    (sig : Signal) (hne : watch_list ≠ []) (hout : sig.peer ∉ watch_list) :
    process_read_update watch_list s sig = (s, []) := by
  unfold process_read_update
  rw [if_pos]
  unfold should_watch
  rw [if_neg hne]
  exact decide_eq_false hout

/-- Every id that `get_messages_in_range` returns lies in the requested
open-closed interval, on the success path by the explicit filter and on
the failure path by the guard of the fallback. -/
lemma mem_get_messages_in_range (history : Except Unit (List Int))
    (from_id to_id x : Int)
    (hx : x ∈ get_messages_in_range history from_id to_id) :
    from_id < x ∧ x ≤ to_id := by
  unfold get_messages_in_range at hx
  rw [List.mem_insertionSort] at hx
  cases history with
  | ok msgs =>
    rw [List.mem_filter] at hx
    obtain ⟨-, hb⟩ := hx
    rw [Bool.and_eq_true] at hb
    exact ⟨of_decide_eq_true hb.1, of_decide_eq_true hb.2⟩
  | error e =>
    by_cases hlt : from_id < to_id
    · rw [if_pos hlt, List.mem_singleton] at hx
      subst hx
      exact ⟨hlt, le_refl _⟩
    · rw [if_neg hlt] at hx
      cases hx

/-- Range-resolver output has no duplicate ids as long as the backend
history oracle yields pairwise distinct ids. -/
lemma get_messages_in_range_nodup (history : Except Unit (List Int))
    (from_id to_id : Int)
    (h : ∀ msgs, history = Except.ok msgs → msgs.Nodup) :
    (get_messages_in_range history from_id to_id).Nodup := by
  unfold get_messages_in_range
  apply (List.Perm.nodup_iff (List.perm_insertionSort _ _)).mpr
  cases history with
  | ok msgs => exact (h msgs rfl).filter _
  | error e =>
    by_cases hlt : from_id < to_id
    · rw [if_pos hlt]
      exact List.nodup_singleton _
    · rw [if_neg hlt]
      exact List.nodup_nil

/-- Claim C6: for bounds old < new the Range Resolver returns an
ascending-sorted list whose every element lies in the interval
(old, new], whatever the backend history window yields. -/
theorem range_resolver_sorted_bounded (history : Except Unit (List Int))
    (old new : Int) (_h : old < new) :
    List.Sorted (fun a b => a ≤ b) (get_messages_in_range history old new) ∧
    ∀ x ∈ get_messages_in_range history old new, old < x ∧ x ≤ new := by
  constructor
  · unfold get_messages_in_range
    exact List.sorted_insertionSort _ _
  · intro x hx
    exact mem_get_messages_in_range history old new x hx

/-- Witness for C6 on a concrete unsorted, out-of-bounds-polluted backend
answer. -/
theorem range_resolver_sorted_bounded_witness :
    (List.Sorted (fun a b => a ≤ b)
      (get_messages_in_range (Except.ok [15, 11, 99, 2, 13]) 10 15) ∧
    ∀ x ∈ get_messages_in_range (Except.ok [15, 11, 99, 2, 13]) 10 15,
      10 < x ∧ x ≤ 15) :=
  range_resolver_sorted_bounded (Except.ok [15, 11, 99, 2, 13]) 10 15 (by decide)

/-- Claim C5: the first-ever signal for a watched conversation (stored
watermark 0, positive new mark) records the watermark and does nothing
else: no dispatches and no StarredSet additions. -/
theorem first_signal_initializes (watch_list : List Int) (s : TrackerState)
    (sig : Signal) (hw : should_watch watch_list sig.peer = true)
    (h0 : s.lastReadIds sig.peer = 0) (hpos : 0 < sig.maxId) :
    (process_read_update watch_list s sig).2 = [] ∧
    (process_read_update watch_list s sig).1.starred = s.starred ∧
    (process_read_update watch_list s sig).1.lastReadIds sig.peer = sig.maxId := by
  have hnle : ¬ sig.maxId ≤ (0 : Int) := not_le.mpr hpos
  have hnle2 : ¬ sig.maxId ≤ s.lastReadIds sig.peer := by
    rw [h0]
    exact hnle
  simp [process_read_update, hw, h0, hnle, hnle2, updateLastRead]

/-- Witness for C5 on a freshly discovered chat. -/
theorem first_signal_initializes_witness :
    (process_read_update [] initialState
        { peer := 1, maxId := 5, history := Except.error () }).2 = [] ∧
    (process_read_update [] initialState
        { peer := 1, maxId := 5, history := Except.error () }).1.starred =
      initialState.starred ∧
    (process_read_update [] initialState
        { peer := 1, maxId := 5, history := Except.error () }).1.lastReadIds 1 = 5 :=
  first_signal_initializes [] initialState
    { peer := 1, maxId := 5, history := Except.error () }
    (by decide) (by decide) (by decide)

/-- Counterexample to claim C9: a watched dialog whose server-reported
read position is unavailable but whose most recent message has id 42
leaves the watermark at 42 — neither 0 nor any server-reported read
position. -/
theorem startup_init_counterexample :
    initialize_read_positions [] [Dialog.mk 1 none (some 42)] (fun _ => 0) 1 = 42 ∧
    (Dialog.mk 1 none (some 42)).read_inbox_max_id = none ∧
    (42 : Int) ≠ 0 := by
  refine ⟨rfl, rfl, by decide⟩

/-- Where a startup watermark entry can come from: it is either the
starting entry, or was written by some watched dialog with that peer id,
from its server-reported read position when available and otherwise from
its most recent message id. -/
lemma initialize_read_positions_spec (watch_list : List Int) :
    ∀ (dialogs : List Dialog) (acc : Int → Int) (p : Int),
      initialize_read_positions watch_list dialogs acc p = acc p ∨
      ∃ d ∈ dialogs, should_watch watch_list d.peer = true ∧ d.peer = p ∧
        (d.read_inbox_max_id =
            some (initialize_read_positions watch_list dialogs acc p) ∨
         (d.read_inbox_max_id = none ∧
          d.top_message =
            some (initialize_read_positions watch_list dialogs acc p))) := by
  intro dialogs
  induction dialogs with
  | nil =>
    intro acc p
    exact Or.inl rfl
  | cons d rest ih =>
    intro acc p
    by_cases hw : should_watch watch_list d.peer = false
    · have hrw : initialize_read_positions watch_list (d :: rest) acc =
          initialize_read_positions watch_list rest acc := by
        simp [initialize_read_positions, hw]
      rw [hrw]
      rcases ih acc p with h | ⟨d2, hd2, h1, h2, h3⟩
      · exact Or.inl h
      · exact Or.inr ⟨d2, List.mem_cons_of_mem _ hd2, h1, h2, h3⟩
    · have hwt : should_watch watch_list d.peer = true := by
        cases hb : should_watch watch_list d.peer
        · exact absurd hb hw
        · rfl
      cases hread : d.read_inbox_max_id with
      | some r =>
        have hrw : initialize_read_positions watch_list (d :: rest) acc =
            initialize_read_positions watch_list rest
              (fun q => if q = d.peer then r else acc q) := by
          simp [initialize_read_positions, hw, hread]
        rw [hrw]
        rcases ih (fun q => if q = d.peer then r else acc q) p with
          h | ⟨d2, hd2, h1, h2, h3⟩
        · by_cases hp : p = d.peer
          · refine Or.inr ⟨d, List.mem_cons_self _ _, hwt, hp.symm, Or.inl ?_⟩
            rw [hread, h, if_pos hp]
          · refine Or.inl ?_
            rw [h, if_neg hp]
        · exact Or.inr ⟨d2, List.mem_cons_of_mem _ hd2, h1, h2, h3⟩
      | none =>
        cases htop : d.top_message with
        | some m =>
          have hrw : initialize_read_positions watch_list (d :: rest) acc =
              initialize_read_positions watch_list rest
                (fun q => if q = d.peer then m else acc q) := by
            simp [initialize_read_positions, hw, hread, htop]
          rw [hrw]
          rcases ih (fun q => if q = d.peer then m else acc q) p with
            h | ⟨d2, hd2, h1, h2, h3⟩
          · by_cases hp : p = d.peer
            · refine Or.inr ⟨d, List.mem_cons_self _ _, hwt, hp.symm,
                Or.inr ⟨hread, ?_⟩⟩
              rw [htop, h, if_pos hp]
            · refine Or.inl ?_
              rw [h, if_neg hp]
          · exact Or.inr ⟨d2, List.mem_cons_of_mem _ hd2, h1, h2, h3⟩
        | none =>
          have hrw : initialize_read_positions watch_list (d :: rest) acc =
              initialize_read_positions watch_list rest acc := by
            simp [initialize_read_positions, hw, hread, htop]
          rw [hrw]
          rcases ih acc p with h | ⟨d2, hd2, h1, h2, h3⟩
          · exact Or.inl h
          · exact Or.inr ⟨d2, List.mem_cons_of_mem _ hd2, h1, h2, h3⟩

/-- Claim C9 as amended: at startup every watermark entry is either left
at its default 0, or set from some watched dialog with that peer id — to
the server-reported read position when available, otherwise to the id of
the most recent message of the dialog. -/
theorem startup_init_amended (watch_list : List Int) (dialogs : List Dialog)
    (p : Int) :
    initialize_read_positions watch_list dialogs (fun _ => 0) p = 0 ∨
    ∃ d ∈ dialogs, should_watch watch_list d.peer = true ∧ d.peer = p ∧
      (d.read_inbox_max_id =
          some (initialize_read_positions watch_list dialogs (fun _ => 0) p) ∨
       (d.read_inbox_max_id = none ∧
        d.top_message =
          some (initialize_read_positions watch_list dialogs (fun _ => 0) p))) :=
  initialize_read_positions_spec watch_list dialogs (fun _ => 0) p

/-- One signal leaves the watermark entry of every other peer untouched. -/
lemma process_lastRead_other (watch_list : List Int) (s : TrackerState)
    (sig : Signal) (p : Int) (hp : sig.peer ≠ p) :
    (process_read_update watch_list s sig).1.lastReadIds p = s.lastReadIds p := by
  have hq : p ≠ sig.peer := Ne.symm hp
  simp only [process_read_update]
  split_ifs <;> simp [updateLastRead, hq]

/-- One watched signal raises exactly its own watermark entry, to the
maximum of the old entry and the delivered high-water mark. -/
lemma process_lastRead_self (watch_list : List Int) (s : TrackerState)
    (sig : Signal) (hw : should_watch watch_list sig.peer = true) :
    (process_read_update watch_list s sig).1.lastReadIds sig.peer =
      max (s.lastReadIds sig.peer) sig.maxId := by
  simp only [process_read_update]
  split_ifs with h1 h2 h3 h4 h5
  · rw [hw] at h1
    exact Bool.noConfusion h1
  · exact (max_eq_left h2).symm
  all_goals rw [max_eq_right (le_of_not_le h2)]
  all_goals simp [updateLastRead]

/-- Unfolding of one tracker step inside `run`. -/
lemma run_cons (watch_list : List Int) (s : TrackerState) (sig : Signal)
    (rest : List Signal) :
    run watch_list s (sig :: rest) =
      ((run watch_list (process_read_update watch_list s sig).1 rest).1,
       (process_read_update watch_list s sig).2.map (fun m => (sig.peer, m)) ++
         (run watch_list (process_read_update watch_list s sig).1 rest).2) := rfl

/-- Claim C3: for a watched conversation, the watermark after any finite
signal sequence equals the running maximum of the delivered high-water
marks starting from the initial entry, and it never decreases. -/
theorem watermark_running_max (watch_list : List Int) (s : TrackerState)
    (signals : List Signal) (p : Int)
    (hw : should_watch watch_list p = true) :
    (run watch_list s signals).1.lastReadIds p =
      List.foldl max (s.lastReadIds p)
        ((signals.filter (fun t => decide (t.peer = p))).map Signal.maxId) ∧
    s.lastReadIds p ≤ (run watch_list s signals).1.lastReadIds p := by
  induction signals generalizing s with
  | nil => exact ⟨rfl, le_refl _⟩
  | cons sig rest ih =>
    rw [run_cons]
    obtain ⟨ih1, ih2⟩ := ih (process_read_update watch_list s sig).1
    by_cases hp : sig.peer = p
    · have hws : should_watch watch_list sig.peer = true := by
        rw [hp]
        exact hw
      have hstep : (process_read_update watch_list s sig).1.lastReadIds p =
          max (s.lastReadIds p) sig.maxId := by
        rw [← hp]
        exact process_lastRead_self watch_list s sig hws
      have hf : (sig :: rest).filter (fun t => decide (t.peer = p)) =
          sig :: rest.filter (fun t => decide (t.peer = p)) := by
        simp [List.filter_cons, hp]
      constructor
      · rw [hf, List.map_cons, List.foldl_cons, ih1, hstep]
      · have hle : s.lastReadIds p ≤
            (process_read_update watch_list s sig).1.lastReadIds p := by
          rw [hstep]
          exact le_max_left _ _
        exact le_trans hle ih2
    · have hf : (sig :: rest).filter (fun t => decide (t.peer = p)) =
          rest.filter (fun t => decide (t.peer = p)) := by
        simp [List.filter_cons, hp]
      constructor
      · rw [hf, ih1, process_lastRead_other watch_list s sig p hp]
      · rw [process_lastRead_other watch_list s sig p hp] at ih2
        exact ih2

/-- Witness for C3 on a concrete two-signal sequence whose second signal
is stale. -/
theorem watermark_running_max_witness :
    ((run [] initialState
        [Signal.mk 5 7 (Except.error ()),
         Signal.mk 5 3 (Except.error ())]).1.lastReadIds 5 =
      List.foldl max (initialState.lastReadIds 5)
        ((([Signal.mk 5 7 (Except.error ()),
            Signal.mk 5 3 (Except.error ())]).filter
            (fun t => decide (t.peer = 5))).map Signal.maxId) ∧
    initialState.lastReadIds 5 ≤
      (run [] initialState
        [Signal.mk 5 7 (Except.error ()),
         Signal.mk 5 3 (Except.error ())]).1.lastReadIds 5) :=
  watermark_running_max [] initialState
    [Signal.mk 5 7 (Except.error ()), Signal.mk 5 3 (Except.error ())] 5
    (by decide)

/-- Dispatched ids of one step were not yet starred when the step began:
the StarredSet check happens before marking, inside the locked region. -/
lemma process_dispatch_fresh (watch_list : List Int) (s : TrackerState)
    (sig : Signal) (m : Int)
    (hm : m ∈ (process_read_update watch_list s sig).2) :
    (sig.peer, m) ∉ s.starred := by
  simp only [process_read_update] at hm
  split_ifs at hm with h1 h2 h3 h4 h5
  · exact absurd hm (List.not_mem_nil m)
  · exact absurd hm (List.not_mem_nil m)
  · exact absurd hm (List.not_mem_nil m)
  · exact absurd hm (List.not_mem_nil m)
  · exact absurd hm (List.not_mem_nil m)
  · have hm2 : m ∈ (get_messages_in_range sig.history (s.lastReadIds sig.peer)
        sig.maxId).filter (fun m => decide ((sig.peer, m) ∉ s.starred)) := hm
    exact of_decide_eq_true (List.mem_filter.mp hm2).2

/-- Dispatched ids of one step are recorded in the StarredSet by the end
of the step, still inside the locked region. -/
lemma process_dispatch_marked (watch_list : List Int) (s : TrackerState)
    (sig : Signal) (m : Int)
    (hm : m ∈ (process_read_update watch_list s sig).2) :
    (sig.peer, m) ∈ (process_read_update watch_list s sig).1.starred := by
  simp only [process_read_update] at hm ⊢
  split_ifs at hm ⊢ with h1 h2 h3 h4 h5
  · exact absurd hm (List.not_mem_nil m)
  · exact absurd hm (List.not_mem_nil m)
  · exact absurd hm (List.not_mem_nil m)
  · exact absurd hm (List.not_mem_nil m)
  · exact absurd hm (List.not_mem_nil m)
  · exact List.mem_append_right _ (List.mem_map.mpr ⟨m, hm, rfl⟩)

/-- The StarredSet only grows across a step. -/
lemma process_starred_mono (watch_list : List Int) (s : TrackerState)
    (sig : Signal) (x : Int × Int) (hx : x ∈ s.starred) :
    x ∈ (process_read_update watch_list s sig).1.starred := by
  simp only [process_read_update]
  split_ifs
  all_goals first
    | exact hx
    | exact List.mem_append_left _ hx

/-- The dispatch list of one step has no duplicate ids whenever the backend
history oracle yields pairwise distinct ids. -/
lemma process_dispatch_nodup (watch_list : List Int) (s : TrackerState)
    (sig : Signal) (h : histNodup sig) :
    (process_read_update watch_list s sig).2.Nodup := by
  simp only [process_read_update]
  split_ifs
  all_goals first
    | exact List.nodup_nil
    | exact List.Nodup.filter _ (get_messages_in_range_nodup _ _ _ h)

/-- The StarredSet only grows across a whole run. -/
lemma run_starred_mono (watch_list : List Int) (signals : List Signal) :
    ∀ (s : TrackerState) (x : Int × Int), x ∈ s.starred →
      x ∈ (run watch_list s signals).1.starred := by
  induction signals with
  | nil =>
    intro s x hx
    exact hx
  | cons sig rest ih =>
    intro s x hx
    rw [run_cons]
    exact ih _ x (process_starred_mono watch_list s sig x hx)

/-- Claim C1: over any finite sequence of read-advance signals — and the
single lock makes every concurrent interleaving, duplicate and
overlapping ranges included, equivalent to such a sequence — each
(conversation, message) pair is dispatched at most once: the dispatch
trace is duplicate-free, every dispatched pair is recorded in the
StarredSet it was checked against before dispatch, and none of them was
in the starting StarredSet.  The hypothesis says each backend history
answer lists pairwise distinct message ids, as a real history window
does. -/
theorem dispatch_at_most_once (watch_list : List Int) (s : TrackerState)
    (signals : List Signal) (hh : ∀ sig ∈ signals, histNodup sig) :
    (run watch_list s signals).2.Nodup ∧
    ∀ pr ∈ (run watch_list s signals).2,
      pr ∈ (run watch_list s signals).1.starred ∧ pr ∉ s.starred := by
  revert hh
  induction signals generalizing s with
  | nil =>
    intro hh
    exact ⟨List.nodup_nil, fun pr hpr => absurd hpr (List.not_mem_nil pr)⟩
  | cons sig rest ih =>
    intro hh
    have hsig : histNodup sig := hh sig (List.mem_cons_self _ _)
    have hrest : ∀ t ∈ rest, histNodup t :=
      fun t ht => hh t (List.mem_cons_of_mem _ ht)
    obtain ⟨ihn, ihm⟩ := ih (process_read_update watch_list s sig).1 hrest
    rw [run_cons]
    constructor
    · apply List.Nodup.append
      · exact (process_dispatch_nodup watch_list s sig hsig).map
          (fun a b hab => (Prod.ext_iff.mp hab).2)
      · exact ihn
      · intro pr hpr1 hpr2
        obtain ⟨m, hm, rfl⟩ := List.mem_map.mp hpr1
        exact (ihm _ hpr2).2 (process_dispatch_marked watch_list s sig m hm)
    · intro pr hpr
      rcases List.mem_append.mp hpr with hpr1 | hpr2
      · obtain ⟨m, hm, rfl⟩ := List.mem_map.mp hpr1
        constructor
        · exact run_starred_mono watch_list rest _ _
            (process_dispatch_marked watch_list s sig m hm)
        · exact process_dispatch_fresh watch_list s sig m hm
      · refine ⟨(ihm pr hpr2).1, ?_⟩
        intro hin
        exact (ihm pr hpr2).2 (process_starred_mono watch_list s sig pr hin)

/-- Witness for C1: three overlapping-range signals for one chat. -/
theorem dispatch_at_most_once_witness :
    (run [] initialState
        [Signal.mk 1 3 (Except.ok [2, 3]),
         Signal.mk 1 5 (Except.ok [3, 4, 5]),
         Signal.mk 1 9 (Except.ok [3, 4, 5, 8])]).2.Nodup ∧
    ∀ pr ∈ (run [] initialState
        [Signal.mk 1 3 (Except.ok [2, 3]),
         Signal.mk 1 5 (Except.ok [3, 4, 5]),
         Signal.mk 1 9 (Except.ok [3, 4, 5, 8])]).2,
      pr ∈ (run [] initialState
        [Signal.mk 1 3 (Except.ok [2, 3]),
         Signal.mk 1 5 (Except.ok [3, 4, 5]),
         Signal.mk 1 9 (Except.ok [3, 4, 5, 8])]).1.starred ∧
      pr ∉ initialState.starred :=
  dispatch_at_most_once [] initialState
    [Signal.mk 1 3 (Except.ok [2, 3]),
     Signal.mk 1 5 (Except.ok [3, 4, 5]),
     Signal.mk 1 9 (Except.ok [3, 4, 5, 8])]
    (by
      intro t ht msgs hmsgs
      simp only [List.mem_cons, List.not_mem_nil, or_false] at ht
      rcases ht with rfl | rfl | rfl <;> (cases hmsgs; decide))

/-- Witness for C10 at a concrete off-list peer. -/
theorem unwatched_peer_untouched_witness :
    process_read_update [7] initialState
        { peer := 1, maxId := 5, history := Except.error () } =
      (initialState, []) :=
  unwatched_peer_untouched [7] initialState
    { peer := 1, maxId := 5, history := Except.error () }
    (by decide) (by decide)

end Autostar
